import Mathlib

/-!
Verification of the poropyck alignment and uncertainty-propagation core
(`poropyck/pick_dtw.py`) against its natural-language specification.

Numeric values are embedded as exact rationals (`ℚ`); the pick statistics,
which involve a square root, use `ℝ`.  Decimal constants from the source are
written as exact rationals: `1e4 = 10000`, `1e-6 = 1/1000000`, `4/3`.
Python exceptions are modelled as `Option`/`Except` failure values.
-/

/-! ## Elastic-property formulas (sample level)

`Signal.mc_velocity`, `Signal.bulk_modulus`, `Signal.young_modulus` and
`Signal.poissons_ratio` evaluate arithmetic expressions element-wise over the
Monte Carlo draws.  The following definitions give that arithmetic on a single
draw `(length, time, density, shear)`. -/

/-- Sample arithmetic of `Signal.mc_velocity` (pick_dtw.py line 438):
`(distance / time) * 1e4`. -/
def mc_velocity (length time : ℚ) : ℚ := (length / time) * 10000

/-- Sample arithmetic of `Signal.bulk_modulus` (line 445):
`(1e-6 * rho * v**2) - ((4/3) * mu)` where `v = mc_velocity`. -/
def bulk_modulus (density length time shear : ℚ) : ℚ :=
  (1 / 1000000) * density * (mc_velocity length time) ^ 2 - (4 / 3) * shear

/-- Sample arithmetic of `Signal.young_modulus` (line 451):
`(3*k - 2*mu) / (2*(3*k + mu))` where `k = bulk_modulus`. -/
def young_modulus (density length time shear : ℚ) : ℚ :=
  let mu := shear
  let k := bulk_modulus density length time shear
  (3 * k - 2 * mu) / (2 * (3 * k + mu))

/-- Sample arithmetic of `Signal.poissons_ratio` (line 457):
`(9*k*mu) / (3*k + mu)` where `k = bulk_modulus`. -/
def poissons_ratio (density length time shear : ℚ) : ℚ :=
  let mu := shear
  let k := bulk_modulus density length time shear
  (9 * k * mu) / (3 * k + mu)

/-! ## Spec-side formulas

Transcribed from the specification's formula block (section 4.5), each output
written as a function of the previously computed outputs, for comparison with
the code-side definitions above. -/

/-- Spec formula `velocity = (length / time) * 1e4`. -/
def spec_velocity (length time : ℚ) : ℚ := (length / time) * 10000

/-- Spec formula `bulk_modulus = (1e-6 * density * velocity^2) - (4/3) * shear`,
as a function of the previously computed `velocity`. -/
def spec_bulk_modulus (density velocity shear : ℚ) : ℚ :=
  (1 / 1000000) * density * velocity ^ 2 - (4 / 3) * shear

/-- Spec formula
`young_modulus = (3*bulk_modulus - 2*shear) / (2*(3*bulk_modulus + shear))`,
as a function of the previously computed `bulk_modulus`. -/
def spec_young_modulus (bulk shear : ℚ) : ℚ :=
  (3 * bulk - 2 * shear) / (2 * (3 * bulk + shear))

/-- Spec formula `poissons_ratio = (9*bulk_modulus*shear) / (3*bulk_modulus + shear)`,
as a function of the previously computed `bulk_modulus`. -/
def spec_poissons_ratio (bulk shear : ℚ) : ℚ :=
  (9 * bulk * shear) / (3 * bulk + shear)

/-! ## Monte Carlo draws

`mcerp` distributions evaluate arithmetic element-wise across their sample
arrays.  We model a Monte Carlo run by its per-draw values: a Gaussian input
contributes one list of draws (modelled from the spec, a Gaussian with
standard deviation 0 draws every sample equal to its mean, i.e. a `replicate`
list).  `Signal.mc_velocity` (line 436) collapses the transit time to the
deterministic mean when the pick standard deviation is not positive:
`time = mc.Normal(time_mean, time_std) if time_std > 0 else time_mean`. -/

/-- Zip four draw lists into per-draw input tuples. -/
def zip4 {α β γ δ : Type} : List α → List β → List γ → List δ → List (α × β × γ × δ)
  | a :: as, b :: bs, c :: cs, d :: ds => (a, b, c, d) :: zip4 as bs cs ds
  | _, _, _, _ => []

/-- Per-draw transit-time values used by `Signal.mc_velocity` (line 436):
the Gaussian draws when `time_std > 0`, otherwise the deterministic mean for
every one of the `n` draws. -/
def mc_time_draws (time_mean time_std : ℚ) (tds : List ℚ) (n : Nat) : List ℚ :=
  if 0 < time_std then tds else List.replicate n time_mean

/-- Element-wise Monte Carlo evaluation of `Signal.mc_velocity` over the
length draws `lds` (and time draws `tds` when `time_std > 0`). -/
def mc_velocity_draws (lds : List ℚ) (time_mean time_std : ℚ) (tds : List ℚ) : List ℚ :=
  List.zipWith mc_velocity lds (mc_time_draws time_mean time_std tds lds.length)

/-- Element-wise Monte Carlo evaluation of `Signal.bulk_modulus` over the
density, length, time and shear draws. -/
def bulk_modulus_draws (dds lds : List ℚ) (time_mean time_std : ℚ)
    (tds sds : List ℚ) : List ℚ :=
  (zip4 dds lds (mc_time_draws time_mean time_std tds lds.length) sds).map
    (fun x => bulk_modulus x.1 x.2.1 x.2.2.1 x.2.2.2)

/-- Element-wise Monte Carlo evaluation of `Signal.young_modulus`. -/
def young_modulus_draws (dds lds : List ℚ) (time_mean time_std : ℚ)
    (tds sds : List ℚ) : List ℚ :=
  (zip4 dds lds (mc_time_draws time_mean time_std tds lds.length) sds).map
    (fun x => young_modulus x.1 x.2.1 x.2.2.1 x.2.2.2)

/-- Element-wise Monte Carlo evaluation of `Signal.poissons_ratio`. -/
def poissons_ratio_draws (dds lds : List ℚ) (time_mean time_std : ℚ)
    (tds sds : List ℚ) : List ℚ :=
  (zip4 dds lds (mc_time_draws time_mean time_std tds lds.length) sds).map
    (fun x => poissons_ratio x.1 x.2.1 x.2.2.1 x.2.2.2)

/-! ## Finiteness-tracking Monte Carlo samples

For claim C8 the finite/non-finite status of each float sample matters, so
the sample arithmetic is repeated with values in `Option ℚ`: `none` stands
for a non-finite float (`inf` or `nan`).  A division by zero produces `none`
(NumPy yields `inf`/`nan` and warns, it does not raise on array operands);
in the elastic formulas every later operation applied to a non-finite operand
yields a non-finite result (the only denominators are `time` and expressions
containing `k` itself), so `none`-propagation is a faithful abstraction. -/

/-- `Signal.mc_velocity` sample with division-by-zero tracking. -/
def mc_velocityF (length time : ℚ) : Option ℚ :=
  if time = 0 then none else some ((length / time) * 10000)

/-- `Signal.bulk_modulus` sample with non-finite tracking: multiplications and
subtraction keep a non-finite operand non-finite. -/
def bulk_modulusF (density length time shear : ℚ) : Option ℚ :=
  (mc_velocityF length time).map
    (fun v => (1 / 1000000) * density * v ^ 2 - (4 / 3) * shear)

/-- `Signal.young_modulus` sample with non-finite tracking. -/
def young_modulusF (density length time shear : ℚ) : Option ℚ :=
  match bulk_modulusF density length time shear with
  | none => none
  | some k =>
    if 2 * (3 * k + shear) = 0 then none
    else some ((3 * k - 2 * shear) / (2 * (3 * k + shear)))

/-- `Signal.poissons_ratio` sample with non-finite tracking. -/
def poissons_ratioF (density length time shear : ℚ) : Option ℚ :=
  match bulk_modulusF density length time shear with
  | none => none
  | some k =>
    if 3 * k + shear = 0 then none
    else some ((9 * k * shear) / (3 * k + shear))

/-- Element-wise Monte Carlo evaluation of `Signal.poissons_ratio` with
non-finite tracking.  The method body is pure arithmetic on the sample
arrays: it contains no finiteness check and no exception path, so the sample
list is produced unconditionally. -/
def poissons_ratio_mc (dds lds : List ℚ) (time_mean time_std : ℚ)
    (tds sds : List ℚ) : List (Option ℚ) :=
  (zip4 dds lds (mc_time_draws time_mean time_std tds lds.length) sds).map
    (fun x => poissons_ratioF x.1 x.2.1 x.2.2.1 x.2.2.2)

/-- The propagation call, wrapped in `Except` so that the failure mode named
by the spec (`NonFiniteDistributionError`) is expressible: the source method
always returns its sample distribution and has no error path, so the result
is `Except.ok` for every input. -/
def poissons_ratio_run (dds lds : List ℚ) (time_mean time_std : ℚ)
    (tds sds : List ℚ) : Except Unit (List (Option ℚ)) :=
  Except.ok (poissons_ratio_mc dds lds time_mean time_std tds sds)

/-- Sum of an array of float samples: non-finite (`none`) as soon as one
sample is non-finite. -/
def opt_sum : List (Option ℚ) → Option ℚ
  | [] => some 0
  | none :: _ => none
  | some x :: rest => (opt_sum rest).map (fun s => x + s)

/-- `np.mean` over a sample array: the sum of all samples divided by their
count, hence non-finite (`none`) whenever any sample is non-finite, and
undefined (`nan`) on an empty array. -/
def mc_mean (samples : List (Option ℚ)) : Option ℚ :=
  match samples with
  | [] => none
  | _ => (opt_sum samples).map (fun s => s / (samples.length : ℚ))

/-! ## Windowing and normalization -/

/-- `Signal.move_line` (lines 339-345): given the current window bounds and a
click position, replace whichever bound is strictly closer to the click with
the click; on a tie the `finish` bound is replaced. -/
def move_line (start finish click : ℚ) : ℚ × ℚ :=
  if |click - start| < |click - finish| then (click, finish) else (start, click)

/-- `np.max(np.abs(signal))` over a sample list (`0` for the empty list, on
which NumPy raises instead; callers only use it on non-empty lists). -/
def np_abs_max : List ℚ → ℚ
  | [] => 0
  | a :: as => (as.map (fun x => |x|)).foldl max (|a|)

/-- The window mask `np.logical_and(start <= times, times <= finish)`
(line 349), applied to a `(time, amplitude)` sample: it depends only on the
time value. -/
def pick_mask (start finish : ℚ) (p : ℚ × ℚ) : Bool :=
  decide (start ≤ p.1 ∧ p.1 ≤ finish)

/-- `Signal.get_picked_data` (lines 347-354): keep the samples with
`start ≤ t ≤ finish` (the mask is computed from the time values and applied to
both arrays), then divide every kept amplitude by the maximum absolute kept
amplitude.  `none` models the `ValueError` NumPy raises when the filtered
range is empty (`np.max` of a zero-size array); when the range is non-empty
the call returns normally — if the maximum absolute amplitude is zero the
division is a division by zero (non-finite floats in NumPy, total rational
division here; the theorems below only use the amplitudes when the maximum is
nonzero). -/
def get_picked_data (start finish : ℚ) (times signal : List ℚ) :
    Option (List ℚ × List ℚ) :=
  match (times.zip signal).filter (pick_mask start finish) with
  | [] => none
  | p :: ps =>
    let absmax := np_abs_max ((p :: ps).map Prod.snd)
    some ((p :: ps).map Prod.fst, ((p :: ps).map Prod.snd).map (fun s => s / absmax))

/-! ## Signal state and its mutating operations

`Signal` holds the loaded series (`times`, `signal`), the window bounds
(`start`, `finish`), the mouse flag `pressed`, the arrival picks `picks`, and
the cached window data (`picked_times`, `picked_signal`).  The methods below
are embedded as state-passing functions. -/

structure SignalState where
  times : List ℚ
  signal : List ℚ
  start : ℚ
  finish : ℚ
  pressed : Bool
  picks : List ℚ
  picked_times : List ℚ
  picked_signal : List ℚ

/-- `Signal.move_line` acting on the state: only the window bounds change. -/
def move_lineS (st : SignalState) (click : ℚ) : SignalState :=
  let b := move_line st.start st.finish click
  { st with start := b.1, finish := b.2 }

/-- `Signal.onpress` (lines 327-331): set `pressed`, reset `picks` to the
empty list, and move the nearest window bound to the click. -/
def onpressS (st : SignalState) (click : ℚ) : SignalState :=
  move_lineS { st with pressed := true, picks := [] } click

/-- `Signal.onrelease` (lines 333-337): clear `pressed`, move the nearest
window bound, and recompute the picked data.  When `get_picked_data` raises
(empty window), the exception propagates and the object keeps its previous
picked data — the state mutated so far. -/
def onreleaseS (st : SignalState) (click : ℚ) : SignalState :=
  let st1 := move_lineS { st with pressed := false } click
  match get_picked_data st1.start st1.finish st1.times st1.signal with
  | some pd => { st1 with picked_times := pd.1, picked_signal := pd.2 }
  | none => st1

/-- `picks.append(value)`: the single mutation applied to a pick set by
`Poropyck.onpick` (lines 142-143). -/
def append_pick (st : SignalState) (v : ℚ) : SignalState :=
  { st with picks := st.picks ++ [v] }

/-- Squared distance from the mouse position to a candidate point
(`Poropyck.onpick` lines 137-138 compares `sqrt` of this quantity; `sqrt` is
strictly monotone on nonnegatives, so minimizing the square selects the same
point as NumPy's `argmin` over the square roots). -/
def dist2 (mx my x y : ℚ) : ℚ := (x - mx) ^ 2 + (y - my) ^ 2

/-- The candidate point nearest to the mouse position: `np.argmin` keeps the
first index attaining the minimum, i.e. a later candidate replaces the
current best only when strictly closer.  `none` models the error NumPy raises
on an empty candidate set (`pick_event`s always carry at least one point). -/
def nearest_point (mx my : ℚ) : List (ℚ × ℚ) → Option (ℚ × ℚ)
  | [] => none
  | p :: ps =>
    some (ps.foldl
      (fun best q => if dist2 mx my q.1 q.2 < dist2 mx my best.1 best.2 then q else best) p)

/-- `Poropyck.onpick` (lines 131-147): select the candidate point nearest to
the mouse, append its y-coordinate to the template signal's picks and its
x-coordinate to the query signal's picks. -/
def onpickP (tmpl query : SignalState) (pts : List (ℚ × ℚ)) (mx my : ℚ) :
    Option (SignalState × SignalState) :=
  match nearest_point mx my pts with
  | none => none
  | some sel => some (append_pick tmpl sel.2, append_pick query sel.1)

/-! ## Pick statistics -/

/-- `Signal.time_picks` (lines 426-431): `(np.min, np.max, np.mean, np.std)`
of the picks when at least one exists (NumPy's `std` is the population
standard deviation), and the fixed default `(-1, 1, 0, 0.25)` for an empty
pick set.  Stated over `ℝ` because the standard deviation takes a square
root, which is irrational in general (hence not executable). -/
noncomputable def time_picks : List ℝ → ℝ × ℝ × ℝ × ℝ
  | [] => (-1, 1, 0, 1 / 4)
  | p :: ps =>
    let picks := p :: ps
    let mean := picks.sum / (picks.length : ℝ)
    (ps.foldl min p, ps.foldl max p, mean,
      Real.sqrt ((picks.map (fun x => (x - mean) ^ 2)).sum / (picks.length : ℝ)))

/-! ## Dynamic time warping

Modelled from the spec: `pick_dtw.py` imports `dtw` from the external `dtw`
package, so the algorithm itself is not part of this repository's source.
Spec section 4.3 specifies the classic dynamic-programming recurrence with
local cost `d(i,j) = |A[i] - B[j]|`, boundary rows and columns accumulated
along the matrix edges, and backtracking from `(|A|,|B|)` to `(1,1)` with tie
preference diagonal, then vertical, then horizontal.  Indices below are
0-based internally and shifted to the spec's 1-based convention in `dtw`. -/

/-- Local cost `d(i,j) = |A[i] - B[j]|` (0-based). -/
def dtw_dist (A B : List ℚ) (i j : Nat) : ℚ := |A.getD i 0 - B.getD j 0|

/-- Cumulative-cost matrix:
`cost(i,j) = d(i,j) + min(cost(i-1,j-1), cost(i-1,j), cost(i,j-1))`, with
`cost(0,0) = d(0,0)` and the boundary row and column accumulated along the
edges. -/
def dtwCost (A B : List ℚ) : Nat → Nat → ℚ
  | 0, 0 => dtw_dist A B 0 0
  | i + 1, 0 => dtw_dist A B (i + 1) 0 + dtwCost A B i 0
  | 0, j + 1 => dtw_dist A B 0 (j + 1) + dtwCost A B 0 j
  | i + 1, j + 1 =>
    dtw_dist A B (i + 1) (j + 1) +
      min (dtwCost A B i j) (min (dtwCost A B i (j + 1)) (dtwCost A B (i + 1) j))
  termination_by i j => (i, j)

/-- Backtracked warping path from `(i,j)` down to `(0,0)`, in reverse order
(deepest cell first).  At an interior cell the predecessor achieving the
minimal cumulative cost is chosen, ties broken by the fixed preference order
diagonal, then vertical, then horizontal; on a boundary the only possible
predecessor is taken. -/
def dtwPathRev (A B : List ℚ) : Nat → Nat → List (Nat × Nat)
  | 0, 0 => [(0, 0)]
  | i + 1, 0 => (i + 1, 0) :: dtwPathRev A B i 0
  | 0, j + 1 => (0, j + 1) :: dtwPathRev A B 0 j
  | i + 1, j + 1 =>
    if dtwCost A B i j ≤ dtwCost A B i (j + 1) ∧
        dtwCost A B i j ≤ dtwCost A B (i + 1) j then
      (i + 1, j + 1) :: dtwPathRev A B i j
    else if dtwCost A B i (j + 1) ≤ dtwCost A B (i + 1) j then
      (i + 1, j + 1) :: dtwPathRev A B i (j + 1)
    else
      (i + 1, j + 1) :: dtwPathRev A B (i + 1) j
  termination_by i j => (i, j)

/-- The alignment engine's output, as consumed by `Poropyck.run_dtw`
(lines 157-167): the accumulated cost and the two 1-based index sequences of
the optimal warping path from `(1,1)` to `(|A|,|B|)`. -/
def dtw (A B : List ℚ) : ℚ × List Nat × List Nat :=
  let path := (dtwPathRev A B (A.length - 1) (B.length - 1)).reverse
  (dtwCost A B (A.length - 1) (B.length - 1),
    path.map (fun q => q.1 + 1), path.map (fun q => q.2 + 1))

/-! ## Theorems -/

/-- Zipping four constant draw lists gives the constant tuple list. -/
theorem zip4_replicate {α β γ δ : Type} (a : α) (b : β) (c : γ) (d : δ) :
    ∀ n, zip4 (List.replicate n a) (List.replicate n b)
      (List.replicate n c) (List.replicate n d) = List.replicate n (a, b, c, d) := by
  intro n
  induction n with
  | zero => rfl
  | succ n ih => simp only [List.replicate_succ, zip4, ih]

/-- Zipping two constant draw lists of the same count gives the constant list. -/
theorem zipWith_replicate_same {α β γ : Type} (f : α → β → γ) (a : α) (b : β) :
    ∀ n, List.zipWith f (List.replicate n a) (List.replicate n b) =
      List.replicate n (f a b) := by
  intro n
  induction n with
  | zero => rfl
  | succ n ih => simp only [List.replicate_succ, List.zipWith_cons_cons, ih]

/-- Claim C1: the elastic-property computations evaluate, in this exact order
and with these exact constants, velocity = (length/time)*1e4, then
bulk = (1e-6*density*velocity^2) - (4/3)*shear, then
young = (3*bulk - 2*shear)/(2*(3*bulk + shear)), then
poisson = (9*bulk*shear)/(3*bulk + shear), for every input tuple
(length, time, density, shear): each code-side function agrees with the
spec-side formula applied to the previously computed output. -/
theorem c1_elastic_formulas (length time density shear : ℚ) :
    mc_velocity length time = spec_velocity length time ∧
    bulk_modulus density length time shear =
      spec_bulk_modulus density (mc_velocity length time) shear ∧
    young_modulus density length time shear =
      spec_young_modulus (bulk_modulus density length time shear) shear ∧
    poissons_ratio density length time shear =
      spec_poissons_ratio (bulk_modulus density length time shear) shear := by
  refine ⟨rfl, rfl, rfl, rfl⟩

/-- Claim C2: when every uncertain input (length, transit time, density, shear
modulus) has standard deviation 0 — i.e. every draw equals the corresponding
mean and the time collapses to its deterministic mean — the Monte Carlo
propagation is deterministic: every output sample equals the closed-form
formula evaluated at the means; in particular length mean 10000 and time mean
100 give velocity exactly (10000/100)*1e4 = 1000000. -/
theorem c2_deterministic_collapse (n : Nat) (L T D S : ℚ) (tds : List ℚ) :
    mc_velocity_draws (List.replicate n L) T 0 tds =
      List.replicate n (spec_velocity L T) ∧
    bulk_modulus_draws (List.replicate n D) (List.replicate n L) T 0 tds
        (List.replicate n S) =
      List.replicate n (spec_bulk_modulus D (spec_velocity L T) S) ∧
    young_modulus_draws (List.replicate n D) (List.replicate n L) T 0 tds
        (List.replicate n S) =
      List.replicate n
        (spec_young_modulus (spec_bulk_modulus D (spec_velocity L T) S) S) ∧
    poissons_ratio_draws (List.replicate n D) (List.replicate n L) T 0 tds
        (List.replicate n S) =
      List.replicate n
        (spec_poissons_ratio (spec_bulk_modulus D (spec_velocity L T) S) S) ∧
    spec_velocity 10000 100 = 1000000 := by
  have htime : mc_time_draws T 0 tds (List.replicate n L).length =
      List.replicate n T := by
    simp [mc_time_draws]
  refine ⟨?_, ?_, ?_, ?_, by norm_num [spec_velocity]⟩
  · simp only [mc_velocity_draws, htime, zipWith_replicate_same]
    rfl
  · simp only [bulk_modulus_draws, htime, zip4_replicate, List.map_replicate]
    rfl
  · simp only [young_modulus_draws, htime, zip4_replicate, List.map_replicate]
    rfl
  · simp only [poissons_ratio_draws, htime, zip4_replicate, List.map_replicate]
    rfl

/-- Claim C5: for every window with bounds `(s, f)` and every adjust value
`v`, if `|v - s| < |v - f|` the new bounds are `(v, f)`; if
`|v - s| ≥ |v - f|` (including the tie case) the new bounds are `(s, v)`. -/
theorem c5_adjust_bound (s f v : ℚ) :
    (|v - s| < |v - f| → move_line s f v = (v, f)) ∧
    (|v - f| ≤ |v - s| → move_line s f v = (s, v)) := by
  constructor
  · intro h
    simp [move_line, h]
  · intro h
    simp [move_line, not_lt.mpr h]

/-- Witness for C5 at concrete inputs: the click 2 is closer to the start
bound 0 and replaces it; the click 6 is closer to the finish bound 10 and
replaces it. -/
theorem c5_adjust_bound_witness :
    move_line 0 10 2 = (2, 10) ∧ move_line 0 10 6 = (0, 6) :=
  ⟨(c5_adjust_bound 0 10 2).1 (by norm_num),
   (c5_adjust_bound 0 10 6).2 (by norm_num)⟩

/-- Claim C3 counterexample: with times `[0, 1]`, amplitudes `[0, 0]` and
window `[0, 1]`, the filtered range is non-empty and its maximum absolute
amplitude is zero, yet `get_picked_data` returns normally (the implementation
divides the amplitudes by zero, producing non-finite values) instead of
failing as the claim requires. -/
theorem c3_degenerate_window_counterexample :
    (([(0 : ℚ), 1].zip [(0 : ℚ), 0]).filter (pick_mask 0 1) ≠ []) ∧
    np_abs_max ((([(0 : ℚ), 1].zip [(0 : ℚ), 0]).filter (pick_mask 0 1)).map
      Prod.snd) = 0 ∧
    get_picked_data 0 1 [0, 1] [0, 0] ≠ none := by decide

/-- Claim C3 (amended): the normalized-segment extraction fails exactly when
the filtered range (samples with `start ≤ t ≤ finish`) is empty — NumPy's
`max` raises on the empty selection; when the range is non-empty but all-zero
the call succeeds, dividing by zero instead of raising. -/
theorem c3_degenerate_window (start finish : ℚ) (times signal : List ℚ) :
    get_picked_data start finish times signal = none ↔
      (times.zip signal).filter (pick_mask start finish) = [] := by
  unfold get_picked_data
  cases h : (times.zip signal).filter (pick_mask start finish) with
  | nil => simp
  | cons p ps => simp

/-- The seed of a left `max` fold is a lower bound of the fold. -/
theorem le_foldl_max {α : Type} [LinearOrder α] (l : List α) :
    ∀ b : α, b ≤ l.foldl max b := by
  induction l with
  | nil => intro b; exact le_refl b
  | cons x l ih => intro b; exact le_trans (le_max_left b x) (ih (max b x))

/-- Every list element is a lower bound of a left `max` fold over the list. -/
theorem mem_le_foldl_max {α : Type} [LinearOrder α] (l : List α) :
    ∀ b : α, ∀ x ∈ l, x ≤ l.foldl max b := by
  induction l with
  | nil => intro b x hx; exact absurd hx (List.not_mem_nil x)
  | cons y l ih =>
    intro b x hx
    rw [List.foldl_cons]
    rcases List.mem_cons.mp hx with h | h
    · subst h
      exact le_trans (le_max_right b x) (le_foldl_max l (max b x))
    · exact ih (max b y) x h

/-- A left `max` fold over a list of rationals divided by a positive constant
is the fold divided by that constant. -/
theorem foldl_max_div (M : ℚ) (hM : 0 < M) (l : List ℚ) :
    ∀ b : ℚ, (l.map (fun x => x / M)).foldl max (b / M) = l.foldl max b / M := by
  induction l with
  | nil => intro b; rfl
  | cons x l ih =>
    intro b
    simp only [List.map_cons, List.foldl_cons, max_div_div_right (le_of_lt hM), ih (max b x)]

/-- Normalizing a non-empty list by its nonzero maximum absolute value yields
a list whose maximum absolute value is exactly 1. -/
theorem np_abs_max_normalize (a : ℚ) (as : List ℚ)
    (hM : np_abs_max (a :: as) ≠ 0) :
    np_abs_max ((a :: as).map (fun s => s / np_abs_max (a :: as))) = 1 := by
  set M := np_abs_max (a :: as) with hMdef
  have hMval : M = (as.map (fun x => |x|)).foldl max (|a|) := rfl
  have hApos : |a| ≤ M := by
    rw [hMval]
    exact le_foldl_max _ _
  have hMpos : 0 < M := lt_of_le_of_ne (le_trans (abs_nonneg a) hApos) (Ne.symm hM)
  have habs : ∀ x : ℚ, |x / M| = |x| / M := fun x => by
    rw [abs_div, abs_of_pos hMpos]
  show ((List.map (fun s => s / M) as).map (fun x => |x|)).foldl max (|a / M|) = 1
  rw [habs a, List.map_map]
  have hcomp : ((fun x => |x|) ∘ fun s => s / M) = fun x => |x| / M := by
    funext x
    exact habs x
  rw [hcomp]
  have hsplit : (as.map (fun x => |x| / M)) =
      ((as.map (fun x => |x|)).map (fun x => x / M)) := by
    rw [List.map_map]
    rfl
  rw [hsplit, foldl_max_div M hMpos, ← hMval, div_self hM]

/-- Claim C6: whenever the filtered range is non-empty (`hf`) and its maximum
absolute amplitude is nonzero (`hM`), the extraction returns exactly the
filtered samples with every amplitude divided by that maximum, and the
maximum absolute amplitude of the result is exactly 1. -/
theorem c6_normalization (start finish : ℚ) (times signal : List ℚ)
    (p : ℚ × ℚ) (ps : List (ℚ × ℚ))
    (hf : (times.zip signal).filter (pick_mask start finish) = p :: ps)
    (hM : np_abs_max ((p :: ps).map Prod.snd) ≠ 0) :
    get_picked_data start finish times signal =
      some ((p :: ps).map Prod.fst,
        ((p :: ps).map Prod.snd).map
          (fun s => s / np_abs_max ((p :: ps).map Prod.snd))) ∧
    np_abs_max (((p :: ps).map Prod.snd).map
        (fun s => s / np_abs_max ((p :: ps).map Prod.snd))) = 1 := by
  constructor
  · unfold get_picked_data
    rw [hf]
  · simp only [List.map_cons] at hM ⊢
    exact np_abs_max_normalize p.2 (ps.map Prod.snd) hM

/-- Witness for C6 at a concrete input: window `[0, 10]` over times `[1]`
and amplitudes `[2]` keeps the single sample; the maximum absolute amplitude
is 2, the normalized amplitude list is `[1]`, and its maximum absolute value
is 1. -/
theorem c6_normalization_witness :
    get_picked_data 0 10 [1] [2] = some ([1], [1]) ∧
    np_abs_max [(1 : ℚ)] = 1 := by
  have h := c6_normalization 0 10 [1] [2] (1, 2) [] (by decide) (by
    show |(2 : ℚ)| ≠ 0
    exact abs_ne_zero.mpr (by norm_num))
  have heval : (([((1 : ℚ), (2 : ℚ))]).map Prod.snd).map
      (fun s => s / np_abs_max (([((1 : ℚ), (2 : ℚ))]).map Prod.snd)) = [1] := by
    show [(2 : ℚ) / np_abs_max [(2 : ℚ)]] = [1]
    rw [show np_abs_max [(2 : ℚ)] = |(2 : ℚ)| from rfl,
      abs_of_nonneg (by norm_num : (0 : ℚ) ≤ 2)]
    norm_num
  refine ⟨?_, ?_⟩
  · rw [h.1, heval]
    rfl
  · show |(1 : ℚ)| = 1
    exact abs_one

/-- The seed of a left `min` fold is an upper bound of the fold. -/
theorem foldl_min_le {α : Type} [LinearOrder α] (l : List α) :
    ∀ b : α, l.foldl min b ≤ b := by
  induction l with
  | nil => intro b; exact le_refl b
  | cons x l ih => intro b; exact le_trans (ih (min b x)) (min_le_left b x)

/-- A left `min` fold is a lower bound of every list element. -/
theorem foldl_min_le_mem {α : Type} [LinearOrder α] (l : List α) :
    ∀ b : α, ∀ x ∈ l, l.foldl min b ≤ x := by
  induction l with
  | nil => intro b x hx; exact absurd hx (List.not_mem_nil x)
  | cons y l ih =>
    intro b x hx
    rw [List.foldl_cons]
    rcases List.mem_cons.mp hx with h | h
    · subst h
      exact le_trans (foldl_min_le l (min b x)) (min_le_right b x)
    · exact ih (min b y) x h

/-- A left `min` fold over a list is the seed or one of the elements. -/
theorem foldl_min_mem {α : Type} [LinearOrder α] (l : List α) :
    ∀ b : α, l.foldl min b ∈ b :: l := by
  induction l with
  | nil => intro b; exact List.mem_singleton.mpr rfl
  | cons x l ih =>
    intro b
    rw [List.foldl_cons]
    rcases List.mem_cons.mp (ih (min b x)) with h | h
    · rcases min_choice b x with hc | hc
      · exact List.mem_cons.mpr (Or.inl (h.trans hc))
      · exact List.mem_cons.mpr
          (Or.inr (List.mem_cons.mpr (Or.inl (h.trans hc))))
    · exact List.mem_cons.mpr (Or.inr (List.mem_cons.mpr (Or.inr h)))

/-- A left `max` fold over a list is the seed or one of the elements. -/
theorem foldl_max_mem {α : Type} [LinearOrder α] (l : List α) :
    ∀ b : α, l.foldl max b ∈ b :: l := by
  induction l with
  | nil => intro b; exact List.mem_singleton.mpr rfl
  | cons x l ih =>
    intro b
    rw [List.foldl_cons]
    rcases List.mem_cons.mp (ih (max b x)) with h | h
    · rcases max_choice b x with hc | hc
      · exact List.mem_cons.mpr (Or.inl (h.trans hc))
      · exact List.mem_cons.mpr
          (Or.inr (List.mem_cons.mpr (Or.inl (h.trans hc))))
    · exact List.mem_cons.mpr (Or.inr (List.mem_cons.mpr (Or.inr h)))

/-- Claim C4: the pick-statistics operation returns (min, max, mean,
population standard deviation) over all picks when at least one pick exists —
the first component is a pick and a lower bound of all picks, the second is a
pick and an upper bound, the third is the sum divided by the count, the
fourth the square root of the population variance — and returns exactly
`(-1, 1, 0, 0.25)` on the empty pick set; concretely `[5]` gives
`(5, 5, 5, 0)` and `[1, 3]` gives `(1, 3, 2, 1)`. -/
theorem c4_pick_statistics :
    (∀ (p : ℝ) (ps : List ℝ),
      ((time_picks (p :: ps)).1 ∈ p :: ps ∧
        ∀ x ∈ p :: ps, (time_picks (p :: ps)).1 ≤ x) ∧
      ((time_picks (p :: ps)).2.1 ∈ p :: ps ∧
        ∀ x ∈ p :: ps, x ≤ (time_picks (p :: ps)).2.1) ∧
      (time_picks (p :: ps)).2.2.1 = (p :: ps).sum / ((p :: ps).length : ℝ) ∧
      (time_picks (p :: ps)).2.2.2 =
        Real.sqrt (((p :: ps).map
            (fun x => (x - (p :: ps).sum / ((p :: ps).length : ℝ)) ^ 2)).sum /
          ((p :: ps).length : ℝ))) ∧
    time_picks [] = (-1, 1, 0, 1 / 4) ∧
    time_picks [5] = (5, 5, 5, 0) ∧
    time_picks [1, 3] = (1, 3, 2, 1) := by
  refine ⟨?_, rfl, by norm_num [time_picks], by norm_num [time_picks, min_def, max_def]⟩
  intro p ps
  refine ⟨⟨?_, ?_⟩, ⟨?_, ?_⟩, rfl, rfl⟩
  · show ps.foldl min p ∈ p :: ps
    exact foldl_min_mem ps p
  · intro x hx
    show ps.foldl min p ≤ x
    rcases List.mem_cons.mp hx with h | h
    · exact h ▸ foldl_min_le ps p
    · exact foldl_min_le_mem ps p x h
  · show ps.foldl max p ∈ p :: ps
    exact foldl_max_mem ps p
  · intro x hx
    show x ≤ ps.foldl max p
    rcases List.mem_cons.mp hx with h | h
    · exact h ▸ le_foldl_max ps p
    · exact mem_le_foldl_max ps p x h

/-- Witness for C4 at a concrete input: on picks `[2, 7]` the first component
of the statistics is one of the picks and is bounded by the pick 7. -/
theorem c4_pick_statistics_witness :
    (time_picks [2, 7]).1 ∈ [(2 : ℝ), 7] ∧ (time_picks [2, 7]).1 ≤ 7 :=
  ⟨(c4_pick_statistics.1 2 [7]).1.1,
   (c4_pick_statistics.1 2 [7]).1.2 7 (by simp)⟩

/-- Claim C7 counterexample: `Signal.onpress` resets the pick set to the
empty list (line 330, `self.picks = []`).  Starting from a state holding the
pick `[5]`, a press removes it: the pick count strictly decreases, which is
impossible for an append-only pick set. -/
theorem c7_append_only_counterexample :
    (onpressS ⟨[0, 1], [1, 2], 1, 2, false, [5], [], []⟩ 2).picks = [] ∧
    (onpressS ⟨[0, 1], [1, 2], 1, 2, false, [5], [], []⟩ 2).picks.length <
      ([(5 : ℚ)]).length :=
  ⟨rfl, by decide⟩

/-- Claim C7 (amended): pick sets are append-only between presses — window
motion and release never change them and a pick event appends — but a mouse
press on a signal axes (`Signal.onpress`) clears that signal's pick set, so
picks are removed at every new window selection. -/
theorem c7_append_only_amended (st : SignalState) (click v : ℚ) :
    (move_lineS st click).picks = st.picks ∧
    (onreleaseS st click).picks = st.picks ∧
    (append_pick st v).picks = st.picks ++ [v] ∧
    (onpressS st click).picks = [] := by
  refine ⟨rfl, ?_, rfl, rfl⟩
  unfold onreleaseS
  dsimp only
  split <;> rfl

/-- A left argmin fold returns the seed or one of the list elements. -/
theorem argmin_foldl_mem {α : Type} (f : α → ℚ) (l : List α) :
    ∀ p : α, l.foldl (fun best q => if f q < f best then q else best) p ∈ p :: l := by
  induction l with
  | nil => intro p; exact List.mem_singleton.mpr rfl
  | cons x l ih =>
    intro p
    simp only [List.foldl_cons]
    rcases List.mem_cons.mp (ih (if f x < f p then x else p)) with h | h
    · rw [h]
      by_cases hc : f x < f p
      · rw [if_pos hc]
        exact List.mem_cons.mpr (Or.inr (List.mem_cons_self x l))
      · rw [if_neg hc]
        exact List.mem_cons_self p (x :: l)
    · exact List.mem_cons.mpr (Or.inr (List.mem_cons.mpr (Or.inr h)))

/-- A left argmin fold minimizes `f` over the seed and the list elements. -/
theorem argmin_foldl_le {α : Type} (f : α → ℚ) (l : List α) :
    ∀ p : α,
      f (l.foldl (fun best q => if f q < f best then q else best) p) ≤ f p ∧
      ∀ q ∈ l, f (l.foldl (fun best q => if f q < f best then q else best) p) ≤ f q := by
  induction l with
  | nil =>
    intro p
    exact ⟨le_refl _, fun q hq => absurd hq (List.not_mem_nil q)⟩
  | cons x l ih =>
    intro p
    obtain ⟨h1, h2⟩ := ih (if f x < f p then x else p)
    have hgp : f (if f x < f p then x else p) ≤ f p := by
      by_cases hc : f x < f p
      · rw [if_pos hc]; exact le_of_lt hc
      · rw [if_neg hc]
    have hgx : f (if f x < f p then x else p) ≤ f x := by
      by_cases hc : f x < f p
      · rw [if_pos hc]
      · rw [if_neg hc]; exact le_of_not_lt hc
    refine ⟨?_, ?_⟩
    · simp only [List.foldl_cons]
      exact le_trans h1 hgp
    · intro q hq
      simp only [List.foldl_cons]
      rcases List.mem_cons.mp hq with h | h
      · rw [h]
        exact le_trans h1 hgx
      · exact h2 q h

/-- A selected nearest point is a candidate and minimizes the squared
distance to the mouse over all candidates. -/
theorem nearest_point_spec (mx my : ℚ) (pts : List (ℚ × ℚ)) (sel : ℚ × ℚ)
    (hsel : nearest_point mx my pts = some sel) :
    sel ∈ pts ∧ ∀ r ∈ pts, dist2 mx my sel.1 sel.2 ≤ dist2 mx my r.1 r.2 := by
  cases pts with
  | nil => exact absurd hsel (by simp [nearest_point])
  | cons p ps =>
    have hval : ps.foldl
        (fun best q => if dist2 mx my q.1 q.2 < dist2 mx my best.1 best.2
          then q else best) p = sel := by
      have h := hsel
      unfold nearest_point at h
      exact Option.some.inj h
    constructor
    · rw [← hval]
      exact argmin_foldl_mem (fun q : ℚ × ℚ => dist2 mx my q.1 q.2) ps p
    · intro r hr
      rw [← hval]
      rcases List.mem_cons.mp hr with h | h
      · rw [h]
        exact (argmin_foldl_le (fun q : ℚ × ℚ => dist2 mx my q.1 q.2) ps p).1
      · exact (argmin_foldl_le (fun q : ℚ × ℚ => dist2 mx my q.1 q.2) ps p).2 r h

/-- Claim C10: every pick event appends exactly one value to each signal's
pick set: the selected point's y-coordinate goes to the template and its
x-coordinate to the query, so both pick sets grow by exactly one; the
selected point is a candidate minimizing the distance to the mouse. -/
theorem c10_pick_appends_both (tmpl query : SignalState) (pts : List (ℚ × ℚ))
    (mx my : ℚ) (sel : ℚ × ℚ)
    (hsel : nearest_point mx my pts = some sel) :
    onpickP tmpl query pts mx my =
      some (append_pick tmpl sel.2, append_pick query sel.1) ∧
    sel ∈ pts ∧
    (∀ r ∈ pts, dist2 mx my sel.1 sel.2 ≤ dist2 mx my r.1 r.2) ∧
    (append_pick tmpl sel.2).picks = tmpl.picks ++ [sel.2] ∧
    (append_pick query sel.1).picks = query.picks ++ [sel.1] ∧
    (append_pick tmpl sel.2).picks.length = tmpl.picks.length + 1 ∧
    (append_pick query sel.1).picks.length = query.picks.length + 1 := by
  obtain ⟨hmem, hmin⟩ := nearest_point_spec mx my pts sel hsel
  refine ⟨?_, hmem, hmin, rfl, rfl, ?_, ?_⟩
  · unfold onpickP
    rw [hsel]
  · simp [append_pick]
  · simp [append_pick]

/-- Witness for C10 at a concrete input: with candidates `[(1,2), (3,4)]` and
the mouse at the origin, the nearest point is `(1,2)`; the pick event appends
its y-coordinate 2 to the template picks and its x-coordinate 1 to the query
picks. -/
theorem c10_pick_appends_both_witness :
    onpickP ⟨[], [], 0, 0, false, [], [], []⟩ ⟨[], [], 0, 0, false, [6], [], []⟩
        [(1, 2), (3, 4)] 0 0 =
      some (append_pick ⟨[], [], 0, 0, false, [], [], []⟩ 2,
        append_pick ⟨[], [], 0, 0, false, [6], [], []⟩ 1) ∧
    (append_pick (⟨[], [], 0, 0, false, [], [], []⟩ : SignalState) 2).picks = [2] ∧
    (append_pick (⟨[], [], 0, 0, false, [6], [], []⟩ : SignalState) 1).picks = [6, 1] := by
  have hnp : nearest_point 0 0 [(1, 2), (3, 4)] = some (1, 2) := by
    norm_num [nearest_point, dist2]
  have h := c10_pick_appends_both ⟨[], [], 0, 0, false, [], [], []⟩
    ⟨[], [], 0, 0, false, [6], [], []⟩ [(1, 2), (3, 4)] 0 0 (1, 2) hnp
  exact ⟨h.1, rfl, rfl⟩

/-- Claim C8 counterexample: with deterministic draws density 3, length 1,
time 10 (std 0) and shear 3, the bulk modulus of every sample is -1, so the
Poisson denominator `3*k + shear` is 0 for every sample: every Monte Carlo
sample is non-finite, yet the propagator does not fail — it returns the
all-non-finite distribution (`Except.ok`), since the source has no
`NonFiniteDistributionError` and performs no finiteness check. -/
theorem c8_nonfinite_counterexample :
    (poissons_ratio_mc [3, 3] [1, 1] 10 0 [] [3, 3]).all Option.isNone = true ∧
    poissons_ratio_run [3, 3] [1, 1] 10 0 [] [3, 3] = Except.ok [none, none] := by
  have htd : mc_time_draws 10 0 [] ([(1 : ℚ), 1].length) = [10, 10] := by
    unfold mc_time_draws
    rw [if_neg (by norm_num : ¬(0 : ℚ) < 0)]
    rfl
  have hP : poissons_ratioF 3 1 10 3 = none := by
    norm_num [poissons_ratioF, bulk_modulusF, mc_velocityF]
  have hmc : poissons_ratio_mc [3, 3] [1, 1] 10 0 [] [3, 3] = [none, none] := by
    unfold poissons_ratio_mc
    rw [htd]
    show [poissons_ratioF 3 1 10 3, poissons_ratioF 3 1 10 3] = [none, none]
    rw [hP]
  constructor
  · rw [hmc]
    rfl
  · show Except.ok (poissons_ratio_mc [3, 3] [1, 1] 10 0 [] [3, 3]) =
      Except.ok [none, none]
    rw [hmc]

/-- The sum of a sample array containing a non-finite sample is non-finite. -/
theorem opt_sum_none (l : List (Option ℚ)) (h : none ∈ l) : opt_sum l = none := by
  induction l with
  | nil => exact absurd h (List.not_mem_nil none)
  | cons a l ih =>
    cases a with
    | none => rfl
    | some x =>
      have h1 : none ∈ l := by
        rcases List.mem_cons.mp h with h1 | h1
        · exact absurd h1 (by simp)
        · exact h1
      show (opt_sum l).map (fun s => x + s) = none
      rw [ih h1]
      rfl

/-- Claim C8 (amended): the propagator performs no finiteness check and never
fails — for every input it returns the full sample distribution, non-finite
samples included — and the reported mean is computed over all samples, so it
is itself non-finite as soon as any sample is non-finite (rather than a
finite-sample mean). -/
theorem c8_nonfinite_amended :
    (∀ (dds lds : List ℚ) (time_mean time_std : ℚ) (tds sds : List ℚ),
      poissons_ratio_run dds lds time_mean time_std tds sds =
        Except.ok (poissons_ratio_mc dds lds time_mean time_std tds sds)) ∧
    (∀ samples : List (Option ℚ), none ∈ samples → mc_mean samples = none) := by
  constructor
  · intro dds lds time_mean time_std tds sds
    rfl
  · intro samples h
    cases samples with
    | nil => exact absurd h (List.not_mem_nil none)
    | cons a l =>
      show (opt_sum (a :: l)).map (fun s => s / (((a :: l).length : ℕ) : ℚ)) = none
      rw [opt_sum_none (a :: l) h]
      rfl

/-- Witness for C8 (amended) at concrete inputs: a concrete propagation run
returns `Except.ok` of its sample list, and the mean of a sample array with
one non-finite entry is non-finite. -/
theorem c8_nonfinite_amended_witness :
    poissons_ratio_run [2] [1] 5 0 [] [7] =
      Except.ok (poissons_ratio_mc [2] [1] 5 0 [] [7]) ∧
    mc_mean [none, some 1] = none :=
  ⟨c8_nonfinite_amended.1 [2] [1] 5 0 [] [7],
   c8_nonfinite_amended.2 [none, some 1] (by simp)⟩

/-- A list with a head is not empty. -/
theorem ne_nil_of_head_eq_some {α : Type} {l : List α} {a : α}
    (h : l.head? = some a) : l ≠ [] := by
  intro hnil
  rw [hnil] at h
  exact Option.noConfusion h

/-- The last element of a cons over a non-empty tail is the last element of
the tail. -/
theorem getLast_cons_of_ne_nil {α : Type} (x : α) {l : List α} (h : l ≠ []) :
    (x :: l).getLast? = l.getLast? := by
  cases l with
  | nil => exact absurd rfl h
  | cons y l => exact List.getLast?_cons_cons

/-- Extending a backtracked path by one cell that dominates the previous head
preserves the head/last/monotonicity invariants. -/
theorem path_cons_spec (a p : Nat × Nat) (l : List (Nat × Nat))
    (hh : l.head? = some p) (hl : l.getLast? = some (0, 0))
    (hc : List.Chain' (fun p q : Nat × Nat => q.1 ≤ p.1 ∧ q.2 ≤ p.2) l)
    (hp1 : p.1 ≤ a.1) (hp2 : p.2 ≤ a.2) :
    (a :: l).head? = some a ∧ (a :: l).getLast? = some (0, 0) ∧
      List.Chain' (fun p q : Nat × Nat => q.1 ≤ p.1 ∧ q.2 ≤ p.2) (a :: l) := by
  have hne : l ≠ [] := ne_nil_of_head_eq_some hh
  refine ⟨rfl, ?_, ?_⟩
  · rw [getLast_cons_of_ne_nil a hne]
    exact hl
  · refine List.chain'_cons'.mpr ⟨?_, hc⟩
    intro y hy
    rw [hh] at hy
    have hyp : p = y := by simpa using hy
    rw [← hyp]
    exact ⟨hp1, hp2⟩

/-- The backtracked warping path from `(i, j)` starts (in reverse order) at
`(i, j)`, ends at `(0, 0)`, and is monotonically non-increasing in both
components along the backtracking direction. -/
theorem dtwPathRev_spec (A B : List ℚ) :
    ∀ i j, (dtwPathRev A B i j).head? = some (i, j) ∧
      (dtwPathRev A B i j).getLast? = some (0, 0) ∧
      List.Chain' (fun p q : Nat × Nat => q.1 ≤ p.1 ∧ q.2 ≤ p.2)
        (dtwPathRev A B i j) := by
  intro i
  induction i with
  | zero =>
    intro j
    induction j with
    | zero =>
      have hbase : dtwPathRev A B 0 0 = [(0, 0)] := by
        simp only [dtwPathRev]
      rw [hbase]
      exact ⟨rfl, rfl, List.chain'_singleton _⟩
    | succ j ihj =>
      obtain ⟨h1, h2, h3⟩ := ihj
      have hcons : dtwPathRev A B 0 (j + 1) = (0, j + 1) :: dtwPathRev A B 0 j := by
        simp only [dtwPathRev]
      rw [hcons]
      exact path_cons_spec (0, j + 1) (0, j) _ h1 h2 h3 (le_refl 0) (Nat.le_succ j)
  | succ i ihi =>
    intro j
    induction j with
    | zero =>
      obtain ⟨h1, h2, h3⟩ := ihi 0
      have hcons : dtwPathRev A B (i + 1) 0 = (i + 1, 0) :: dtwPathRev A B i 0 := by
        simp only [dtwPathRev]
      rw [hcons]
      exact path_cons_spec (i + 1, 0) (i, 0) _ h1 h2 h3 (Nat.le_succ i) (le_refl 0)
    | succ j ihj =>
      by_cases hd : dtwCost A B i j ≤ dtwCost A B i (j + 1) ∧
          dtwCost A B i j ≤ dtwCost A B (i + 1) j
      · obtain ⟨h1, h2, h3⟩ := ihi j
        have hcons : dtwPathRev A B (i + 1) (j + 1) =
            (i + 1, j + 1) :: dtwPathRev A B i j := by
          simp only [dtwPathRev]
          rw [if_pos hd]
        rw [hcons]
        exact path_cons_spec (i + 1, j + 1) (i, j) _ h1 h2 h3
          (Nat.le_succ i) (Nat.le_succ j)
      · by_cases hv : dtwCost A B i (j + 1) ≤ dtwCost A B (i + 1) j
        · obtain ⟨h1, h2, h3⟩ := ihi (j + 1)
          have hcons : dtwPathRev A B (i + 1) (j + 1) =
              (i + 1, j + 1) :: dtwPathRev A B i (j + 1) := by
            simp only [dtwPathRev]
            rw [if_neg hd, if_pos hv]
          rw [hcons]
          exact path_cons_spec (i + 1, j + 1) (i, j + 1) _ h1 h2 h3
            (Nat.le_succ i) (le_refl (j + 1))
        · obtain ⟨h1, h2, h3⟩ := ihj
          have hcons : dtwPathRev A B (i + 1) (j + 1) =
              (i + 1, j + 1) :: dtwPathRev A B (i + 1) j := by
            simp only [dtwPathRev]
            rw [if_neg hd, if_neg hv]
          rw [hcons]
          exact path_cons_spec (i + 1, j + 1) (i + 1, j) _ h1 h2 h3
            (le_refl (i + 1)) (Nat.le_succ j)

/-- Claim C9: for every pair of non-empty input sequences, the alignment
engine's output path consists of two equal-length 1-based index sequences,
each monotonically non-decreasing, starting at `(1, 1)` and ending at
`(|A|, |B|)`. -/
theorem c9_dtw_path (A B : List ℚ) (hA : A ≠ []) (hB : B ≠ []) :
    (dtw A B).2.1.length = (dtw A B).2.2.length ∧
    List.Chain' (· ≤ ·) (dtw A B).2.1 ∧
    List.Chain' (· ≤ ·) (dtw A B).2.2 ∧
    (dtw A B).2.1.head? = some 1 ∧
    (dtw A B).2.2.head? = some 1 ∧
    (dtw A B).2.1.getLast? = some A.length ∧
    (dtw A B).2.2.getLast? = some B.length := by
  obtain ⟨hh, hl, hc⟩ := dtwPathRev_spec A B (A.length - 1) (B.length - 1)
  have h21 : (dtw A B).2.1 =
      (dtwPathRev A B (A.length - 1) (B.length - 1)).reverse.map
        (fun q => q.1 + 1) := rfl
  have h22 : (dtw A B).2.2 =
      (dtwPathRev A B (A.length - 1) (B.length - 1)).reverse.map
        (fun q => q.2 + 1) := rfl
  have hAlen : A.length - 1 + 1 = A.length :=
    Nat.succ_pred_eq_of_pos (List.length_pos.mpr hA)
  have hBlen : B.length - 1 + 1 = B.length :=
    Nat.succ_pred_eq_of_pos (List.length_pos.mpr hB)
  refine ⟨?_, ?_, ?_, ?_, ?_, ?_, ?_⟩
  · rw [h21, h22, List.length_map, List.length_map]
  · rw [h21, List.chain'_map, List.chain'_reverse]
    refine hc.imp ?_
    intro p q hpq
    exact Nat.add_le_add_right hpq.1 1
  · rw [h22, List.chain'_map, List.chain'_reverse]
    refine hc.imp ?_
    intro p q hpq
    exact Nat.add_le_add_right hpq.2 1
  · rw [h21, List.head?_map, List.head?_reverse, hl]
    rfl
  · rw [h22, List.head?_map, List.head?_reverse, hl]
    rfl
  · rw [h21, List.getLast?_map, List.getLast?_reverse, hh]
    show some (A.length - 1 + 1) = some A.length
    rw [hAlen]
  · rw [h22, List.getLast?_map, List.getLast?_reverse, hh]
    show some (B.length - 1 + 1) = some B.length
    rw [hBlen]

/-- Witness for C9 at concrete non-empty inputs `A = [1, 2]`, `B = [3]`. -/
theorem c9_dtw_path_witness :
    (dtw [1, 2] [3]).2.1.length = (dtw [1, 2] [3]).2.2.length ∧
    List.Chain' (· ≤ ·) (dtw [1, 2] [3]).2.1 ∧
    List.Chain' (· ≤ ·) (dtw [1, 2] [3]).2.2 ∧
    (dtw [1, 2] [3]).2.1.head? = some 1 ∧
    (dtw [1, 2] [3]).2.2.head? = some 1 ∧
    (dtw [1, 2] [3]).2.1.getLast? = some ([(1 : ℚ), 2].length) ∧
    (dtw [1, 2] [3]).2.2.getLast? = some ([(3 : ℚ)].length) :=
  c9_dtw_path [1, 2] [3] (by simp) (by simp)

/-- Witness for C1 at a concrete input tuple (length 1, time 2, density 3,
shear 4). -/
theorem c1_elastic_formulas_witness :
    mc_velocity 1 2 = spec_velocity 1 2 ∧
    bulk_modulus 3 1 2 4 = spec_bulk_modulus 3 (mc_velocity 1 2) 4 ∧
    young_modulus 3 1 2 4 = spec_young_modulus (bulk_modulus 3 1 2 4) 4 ∧
    poissons_ratio 3 1 2 4 = spec_poissons_ratio (bulk_modulus 3 1 2 4) 4 :=
  c1_elastic_formulas 1 2 3 4

/-- Witness for C2 at a concrete run with one draw, length mean 10000, time
mean 100, density mean 2 and shear mean 3, all stds zero. -/
theorem c2_deterministic_collapse_witness :
    mc_velocity_draws (List.replicate 1 10000) 100 0 [] =
      List.replicate 1 (spec_velocity 10000 100) ∧
    bulk_modulus_draws (List.replicate 1 2) (List.replicate 1 10000) 100 0 []
        (List.replicate 1 3) =
      List.replicate 1 (spec_bulk_modulus 2 (spec_velocity 10000 100) 3) ∧
    young_modulus_draws (List.replicate 1 2) (List.replicate 1 10000) 100 0 []
        (List.replicate 1 3) =
      List.replicate 1
        (spec_young_modulus (spec_bulk_modulus 2 (spec_velocity 10000 100) 3) 3) ∧
    poissons_ratio_draws (List.replicate 1 2) (List.replicate 1 10000) 100 0 []
        (List.replicate 1 3) =
      List.replicate 1
        (spec_poissons_ratio (spec_bulk_modulus 2 (spec_velocity 10000 100) 3) 3) ∧
    spec_velocity 10000 100 = 1000000 :=
  c2_deterministic_collapse 1 10000 100 2 3 []

/-- Witness for C3 (amended) at a concrete input: the window `[5, 6]` selects
no sample of the series with times `[1, 2]`, and the extraction fails. -/
theorem c3_degenerate_window_witness :
    get_picked_data 5 6 [1, 2] [3, 4] = none :=
  (c3_degenerate_window 5 6 [1, 2] [3, 4]).mpr (by decide)

/-- Witness for C7 (amended) at a concrete state with picks `[4]`. -/
theorem c7_append_only_amended_witness :
    (move_lineS ⟨[0, 1], [1, 2], 0, 1, false, [4], [], []⟩ 2).picks =
      (⟨[0, 1], [1, 2], 0, 1, false, [4], [], []⟩ : SignalState).picks ∧
    (onreleaseS ⟨[0, 1], [1, 2], 0, 1, false, [4], [], []⟩ 2).picks =
      (⟨[0, 1], [1, 2], 0, 1, false, [4], [], []⟩ : SignalState).picks ∧
    (append_pick ⟨[0, 1], [1, 2], 0, 1, false, [4], [], []⟩ 9).picks =
      (⟨[0, 1], [1, 2], 0, 1, false, [4], [], []⟩ : SignalState).picks ++ [9] ∧
    (onpressS ⟨[0, 1], [1, 2], 0, 1, false, [4], [], []⟩ 2).picks = [] :=
  c7_append_only_amended ⟨[0, 1], [1, 2], 0, 1, false, [4], [], []⟩ 2 9
